import Mathlib

/-!
Verification of the signal-generation core of the freqtrade-monitoring-stack
repository (the `DefaultStrategy` trading strategy): candle data model,
indicator bank, crossover detector and rule evaluator, with theorems checking
the natural-language specification against this embedding.

The strategy file (`user_data/strategies/DefaultStrategy.py`) wires the
pipeline and the rule expressions; the indicator and crossover primitives it
calls (talib, qtpylib) are vendored libraries outside this repository, so they
are modelled from the specification's definitions (§4.1, §4.2), as marked on
each such definition.  Machine floats are modelled as exact rationals, and the
float `NaN` ("undefined") as `Option.none`; the population standard deviation
inside the Bollinger computation needs a real square root, which is not
rational, so the development is parametric in a square-root stand-in `sq` —
no claim below depends on the values `sq` returns.
-/

/-- A single OHLCV record (spec §3): timestamp, open, high, low, close,
volume, all modelled as exact rationals. -/
structure Candle where
  ts : ℚ
  open_price : ℚ
  high : ℚ
  low : ℚ
  close : ℚ
  volume : ℚ
deriving DecidableEq, Repr

/-- Comparison `a < b` on possibly-undefined values: any comparison involving an
undefined operand is `false` (pandas `NaN` comparison semantics, spec §4.3). -/
def oLT : Option ℚ → Option ℚ → Bool
  | some a, some b => decide (a < b)
  | _, _ => false

/-- Comparison `a ≤ b` on possibly-undefined values; `false` when either is undefined. -/
def oLE : Option ℚ → Option ℚ → Bool
  | some a, some b => decide (a ≤ b)
  | _, _ => false

/-- Comparison `a > b` on possibly-undefined values; `false` when either is undefined. -/
def oGT (a b : Option ℚ) : Bool := oLT b a

/-- Comparison `a ≥ b` on possibly-undefined values; `false` when either is undefined. -/
def oGE (a b : Option ℚ) : Bool := oLE b a

/-- Pointwise subtraction of possibly-undefined values. -/
def osub : Option ℚ → Option ℚ → Option ℚ
  | some a, some b => some (a - b)
  | _, _ => none

/-- Read index `i` of a derived (possibly-undefined-valued) series; out of
range reads as undefined. -/
def sget (xs : List (Option ℚ)) (i : ℕ) : Option ℚ := (xs[i]?).getD none

/-- Read index `i` of a raw candle column; out of range reads as undefined. -/
def qget (xs : List ℚ) (i : ℕ) : Option ℚ := xs[i]?

/-- Modelled from the spec (§4.2, Crossover Detector; the qtpylib `crossed`
primitive is not part of this repository): `crossed_above A B i` is true iff
`A[i-1] ≤ B[i-1]` and `A[i] > B[i]`, with index 0 never crossing and any
undefined operand making the comparison false. -/
def crossed_above (A B : List (Option ℚ)) : ℕ → Bool
  | 0 => false
  | j + 1 => oLE (sget A j) (sget B j) && oGT (sget A (j + 1)) (sget B (j + 1))

/-- Modelled from the spec (§4.2): mirror of `crossed_above`; previous
`A ≥ B`, current `A < B`. -/
def crossed_below (A B : List (Option ℚ)) : ℕ → Bool
  | 0 => false
  | j + 1 => oGE (sget A j) (sget B j) && oLT (sget A (j + 1)) (sget B (j + 1))

/-- A constant threshold viewed as a series (spec §4.3: "treats the threshold
as a constant second series"). -/
def const_series (n : ℕ) (c : ℚ) : List (Option ℚ) := List.replicate n (some c)

/-- Recursive tail of an exponential moving average: each output is
`α·x + (1-α)·previous`. -/
def emaAux (a : ℚ) : ℚ → List ℚ → List ℚ
  | _, [] => []
  | prev, x :: rest =>
      let cur := a * x + (1 - a) * prev
      cur :: emaAux a cur rest

/-- Modelled from the spec (§4.1, EMA; the talib implementation is not part
of this repository): exponential moving average with smoothing factor
`α = 2/(period+1)`, seeded at index `period-1` by the simple average of the
first `period` values; undefined before the seed, and everywhere when the
series is shorter than `period` or the period is not positive. -/
def EMA (period : ℕ) (xs : List ℚ) : List (Option ℚ) :=
  if period = 0 ∨ xs.length < period then List.replicate xs.length none
  else
    let seed := (xs.take period).sum / (period : ℚ)
    List.replicate (period - 1) none ++
      some seed :: (emaAux (2 / ((period : ℚ) + 1)) seed (xs.drop period)).map some

/-- Modelled from the spec (§4.1): an EMA taken over a series whose head is an
undefined warm-up region (as `macd_signal = EMA(macd, 9)` requires) applies
the EMA to the defined values and keeps the undefined head. -/
def optEMA (period : ℕ) (xs : List (Option ℚ)) : List (Option ℚ) :=
  let defined := xs.filterMap id
  List.replicate (xs.length - defined.length) none ++ EMA period defined

/-- Modelled from the spec (§4.1, MACD): `macd = EMA(close,12) - EMA(close,26)`. -/
def macdLine (xs : List ℚ) : List (Option ℚ) :=
  List.zipWith osub (EMA 12 xs) (EMA 26 xs)

/-- Modelled from the spec (§4.1, MACD): `macd_signal = EMA(macd, 9)`. -/
def macdSignalLine (xs : List ℚ) : List (Option ℚ) := optEMA 9 (macdLine xs)

/-- Modelled from the spec (§4.1, MACD): `macd_hist = macd - macd_signal`. -/
def macdHistLine (xs : List ℚ) : List (Option ℚ) :=
  List.zipWith osub (macdLine xs) (macdSignalLine xs)

/-- Arithmetic mean of a list of rationals. -/
def meanQ (l : List ℚ) : ℚ := l.sum / (l.length : ℚ)

/-- Population variance of a list of rationals. -/
def varQ (l : List ℚ) : ℚ := ((l.map fun x => (x - meanQ l) ^ 2).sum) / (l.length : ℚ)

/-- One Bollinger column: apply `f` to the window of `window` samples ending
at (and including) each index; undefined while fewer than `window` samples
are available. -/
def bbCol (window : ℕ) (f : List ℚ → ℚ) (xs : List ℚ) : List (Option ℚ) :=
  (List.range xs.length).map fun i =>
    if window ≤ i + 1 then some (f ((xs.drop (i + 1 - window)).take window)) else none

/-- Modelled from the spec (§4.1, Bollinger Bands; the qtpylib implementation
is not part of this repository): `mid` is the rolling mean of typical price,
`upper`/`lower` are `mid ± stds·stddev` with `stddev` the population standard
deviation over the same window; `sq` stands in for the (irrational) square
root, and no theorem below depends on its values.  Returned as
(lower, mid, upper). -/
def bollinger_bands (sq : ℚ → ℚ) (window : ℕ) (stds : ℚ) (xs : List ℚ) :
    List (Option ℚ) × List (Option ℚ) × List (Option ℚ) :=
  (bbCol window (fun l => meanQ l - stds * sq (varQ l)) xs,
   bbCol window meanQ xs,
   bbCol window (fun l => meanQ l + stds * sq (varQ l)) xs)

/-- Wilder smoothing of (average gain, average loss) pairs over the remaining
price differences: `avg' = (avg·(p-1) + current)/p`. -/
def wilderAux (p : ℚ) : ℚ × ℚ → List ℚ → List (ℚ × ℚ)
  | _, [] => []
  | (ag, al), d :: rest =>
      let ag2 := (ag * (p - 1) + max d 0) / p
      let al2 := (al * (p - 1) + max (-d) 0) / p
      (ag2, al2) :: wilderAux p (ag2, al2) rest

/-- The RSI value determined by an (average gain, average loss) pair; when
there are no losses the Wilder convention yields 100 (spec §8). -/
def rsiVal (ag al : ℚ) : ℚ := if al = 0 then 100 else 100 * ag / (ag + al)

/-- Modelled from the spec (§4.1, RSI; the talib implementation is not part
of this repository): Wilder's RSI — exponential averages of gains and losses
seeded by a simple average over the first `period` close-to-close
differences, undefined for the first `period` indices. -/
def RSI (period : ℕ) (xs : List ℚ) : List (Option ℚ) :=
  if period = 0 ∨ xs.length ≤ period then List.replicate xs.length none
  else
    let diffs := List.zipWith (fun b a => b - a) xs.tail xs
    let seedG := ((diffs.take period).map fun d => max d 0).sum / (period : ℚ)
    let seedL := ((diffs.take period).map fun d => max (-d) 0).sum / (period : ℚ)
    List.replicate period none ++
      ((seedG, seedL) :: wilderAux (period : ℚ) (seedG, seedL) (diffs.drop period)).map
        fun p => some (rsiVal p.1 p.2)

/-- The dataframe the strategy manipulates: the raw candle columns plus the
indicator columns written by `populate_indicators` and the two signal columns
written by the rule evaluators.  An absent pandas column / a `NaN` cell is
`none`. -/
structure Frame where
  ts : List ℚ
  open_price : List ℚ
  high : List ℚ
  low : List ℚ
  close : List ℚ
  volume : List ℚ
  rsi : List (Option ℚ)
  macd : List (Option ℚ)
  macdsignal : List (Option ℚ)
  macdhist : List (Option ℚ)
  bb_lowerband : List (Option ℚ)
  bb_middleband : List (Option ℚ)
  bb_upperband : List (Option ℚ)
  ema10 : List (Option ℚ)
  ema50 : List (Option ℚ)
  enter_long : List (Option ℚ)
  exit_long : List (Option ℚ)
deriving DecidableEq, Repr

/-- The dataframe handed to the strategy: candle columns from the series, all
derived columns absent (entirely undefined). -/
def mkFrame (cs : List Candle) : Frame where
  ts := cs.map Candle.ts
  open_price := cs.map Candle.open_price
  high := cs.map Candle.high
  low := cs.map Candle.low
  close := cs.map Candle.close
  volume := cs.map Candle.volume
  rsi := List.replicate cs.length none
  macd := List.replicate cs.length none
  macdsignal := List.replicate cs.length none
  macdhist := List.replicate cs.length none
  bb_lowerband := List.replicate cs.length none
  bb_middleband := List.replicate cs.length none
  bb_upperband := List.replicate cs.length none
  ema10 := List.replicate cs.length none
  ema50 := List.replicate cs.length none
  enter_long := List.replicate cs.length none
  exit_long := List.replicate cs.length none

/-- Embeds `DefaultStrategy.populate_indicators` (source lines 42–62): RSI(14), the
MACD triple, Bollinger bands on typical price (window 20, 2 standard
deviations), and the 10- and 50-period EMAs, all written into the frame. -/
def populate_indicators (sq : ℚ → ℚ) (df : Frame) : Frame :=
  let tp := List.zipWith (fun s c => (s + c) / 3)
    (List.zipWith (· + ·) df.high df.low) df.close
  let bb := bollinger_bands sq 20 2 tp
  { df with
    rsi := RSI 14 df.close
    macd := macdLine df.close
    macdsignal := macdSignalLine df.close
    macdhist := macdHistLine df.close
    bb_lowerband := bb.1
    bb_middleband := bb.2.1
    bb_upperband := bb.2.2
    ema10 := EMA 10 df.close
    ema50 := EMA 50 df.close }

/-- The entry-rule condition of `populate_entry_trend` (source lines 65–71):
RSI crossed above 30, `macd > macdsignal`, `close > ema10`, `volume > 0`. -/
def entry_cond (df : Frame) (i : ℕ) : Bool :=
  crossed_above df.rsi (const_series df.rsi.length 30) i &&
  oGT (sget df.macd i) (sget df.macdsignal i) &&
  oGT (qget df.close i) (sget df.ema10 i) &&
  oGT (qget df.volume i) (some 0)

/-- Embeds `DefaultStrategy.populate_entry_trend` (source lines 64–74): rows
matching the entry condition get `enter_long = 1`; all other cells of the
frame are left as they were. -/
def populate_entry_trend (df : Frame) : Frame :=
  { df with enter_long :=
      (List.range df.close.length).map fun i =>
        if entry_cond df i then some 1 else sget df.enter_long i }

/-- The exit-rule condition of `populate_exit_trend` (source lines 78–82):
RSI crossed above 70, or `close > bb_upperband`, or MACD crossed below its
signal line. -/
def exit_cond (df : Frame) (i : ℕ) : Bool :=
  crossed_above df.rsi (const_series df.rsi.length 70) i ||
  oGT (qget df.close i) (sget df.bb_upperband i) ||
  crossed_below df.macd df.macdsignal i

/-- Embeds `DefaultStrategy.populate_exit_trend` (source lines 76–85): rows matching
the exit condition get `exit_long = 1`; everything else is untouched. -/
def populate_exit_trend (df : Frame) : Frame :=
  { df with exit_long :=
      (List.range df.close.length).map fun i =>
        if exit_cond df i then some 1 else sget df.exit_long i }

/-- One full-series evaluation: indicators, then the entry rule, then the
exit rule, exactly as the freqtrade framework drives the strategy. -/
def evaluate (sq : ℚ → ℚ) (cs : List Candle) : Frame :=
  populate_exit_trend (populate_entry_trend (populate_indicators sq (mkFrame cs)))

/-- Validity of a candle series per spec §3/§7: non-empty, strictly
increasing timestamps, no negative volume. -/
def validSeries (cs : List Candle) : Bool :=
  !cs.isEmpty &&
  decide (List.Chain' (· < ·) (cs.map Candle.ts)) &&
  cs.all fun c => decide (0 ≤ c.volume)

/-- A concrete stand-in for the square root used to instantiate concrete
evaluations; no theorem depends on its values. -/
def sq0 : ℚ → ℚ := fun _ => 0

/-! ### Basic facts about series access and the option-valued comparisons -/

theorem sget_range_map (f : ℕ → Option ℚ) (n i : ℕ) :
    sget ((List.range n).map f) i = if i < n then f i else none := by
  by_cases h : i < n
  · simp [sget, List.getElem?_map, List.getElem?_range h, h]
  · simp [sget, List.getElem?_eq_none, List.length_map, List.length_range,
      Nat.le_of_not_lt h, h]

theorem sget_all_none {xs : List (Option ℚ)} (h : ∀ x ∈ xs, x = none) (i : ℕ) :
    sget xs i = none := by
  unfold sget
  cases hx : xs[i]? with
  | none => rfl
  | some x => simpa using h x (List.getElem?_mem hx)

theorem sget_replicate_none (n i : ℕ) : sget (List.replicate n none) i = none :=
  sget_all_none (by simp +contextual [List.eq_of_mem_replicate]) i

theorem oLT_none_left (b : Option ℚ) : oLT none b = false := by cases b <;> rfl

theorem oLT_none_right (a : Option ℚ) : oLT a none = false := by cases a <;> rfl

theorem oLE_none_left (b : Option ℚ) : oLE none b = false := by cases b <;> rfl

theorem oLE_none_right (a : Option ℚ) : oLE a none = false := by cases a <;> rfl

theorem lt_length_of_sget_ne_none {xs : List (Option ℚ)} {i : ℕ}
    (h : sget xs i ≠ none) : i < xs.length := by
  by_contra hc
  exact h (by simp [sget, List.getElem?_eq_none (Nat.le_of_not_lt hc)])

theorem lt_length_of_qget_ne_none {xs : List ℚ} {i : ℕ}
    (h : qget xs i ≠ none) : i < xs.length := by
  by_contra hc
  exact h (by simp [qget, List.getElem?_eq_none (Nat.le_of_not_lt hc)])

/-! ### Length preservation of the indicator bank -/

theorem emaAux_length (a : ℚ) (p : ℚ) (xs : List ℚ) :
    (emaAux a p xs).length = xs.length := by
  induction xs generalizing p with
  | nil => rfl
  | cons x rest ih => simp [emaAux, ih]

theorem EMA_length (period : ℕ) (xs : List ℚ) : (EMA period xs).length = xs.length := by
  unfold EMA
  split
  · simp
  · rename_i h
    push_neg at h
    simp [emaAux_length]
    omega

theorem wilderAux_length (p : ℚ) (pr : ℚ × ℚ) (ds : List ℚ) :
    (wilderAux p pr ds).length = ds.length := by
  induction ds generalizing pr with
  | nil => rfl
  | cons d rest ih =>
    obtain ⟨ag, al⟩ := pr
    simp [wilderAux, ih]

theorem RSI_length (period : ℕ) (xs : List ℚ) : (RSI period xs).length = xs.length := by
  unfold RSI
  split
  · simp
  · rename_i h
    push_neg at h
    simp [wilderAux_length, List.length_zipWith, List.length_tail]
    omega

theorem macdLine_length (xs : List ℚ) : (macdLine xs).length = xs.length := by
  simp [macdLine, List.length_zipWith, EMA_length]

theorem optEMA_length (period : ℕ) (xs : List (Option ℚ)) :
    (optEMA period xs).length = xs.length := by
  have h := List.length_filterMap_le id xs
  simp [optEMA, EMA_length]
  omega

theorem macdSignalLine_length (xs : List ℚ) : (macdSignalLine xs).length = xs.length := by
  simp [macdSignalLine, optEMA_length, macdLine_length]

/-! ### The columns of an evaluated frame -/

/-- The close column of a candle series. -/
def closes (cs : List Candle) : List ℚ := cs.map Candle.close

/-- The volume column of a candle series. -/
def volumes (cs : List Candle) : List ℚ := cs.map Candle.volume

/-- The typical-price column `(high+low+close)/3` of a candle series. -/
def typical (cs : List Candle) : List ℚ :=
  List.zipWith (fun s c => (s + c) / 3)
    (List.zipWith (· + ·) (cs.map Candle.high) (cs.map Candle.low)) (cs.map Candle.close)

theorem evaluate_rsi (sq : ℚ → ℚ) (cs : List Candle) :
    (evaluate sq cs).rsi = RSI 14 (closes cs) := rfl

theorem evaluate_ema10 (sq : ℚ → ℚ) (cs : List Candle) :
    (evaluate sq cs).ema10 = EMA 10 (closes cs) := rfl

theorem evaluate_ema50 (sq : ℚ → ℚ) (cs : List Candle) :
    (evaluate sq cs).ema50 = EMA 50 (closes cs) := rfl

theorem evaluate_macdsignal (sq : ℚ → ℚ) (cs : List Candle) :
    (evaluate sq cs).macdsignal = macdSignalLine (closes cs) := rfl

theorem indf_rsi (sq : ℚ → ℚ) (cs : List Candle) :
    (populate_indicators sq (mkFrame cs)).rsi = RSI 14 (closes cs) := rfl

theorem indf_macd (sq : ℚ → ℚ) (cs : List Candle) :
    (populate_indicators sq (mkFrame cs)).macd = macdLine (closes cs) := rfl

theorem indf_macdsignal (sq : ℚ → ℚ) (cs : List Candle) :
    (populate_indicators sq (mkFrame cs)).macdsignal = macdSignalLine (closes cs) := rfl

theorem indf_ema10 (sq : ℚ → ℚ) (cs : List Candle) :
    (populate_indicators sq (mkFrame cs)).ema10 = EMA 10 (closes cs) := rfl

theorem indf_close (sq : ℚ → ℚ) (cs : List Candle) :
    (populate_indicators sq (mkFrame cs)).close = closes cs := rfl

theorem indf_volume (sq : ℚ → ℚ) (cs : List Candle) :
    (populate_indicators sq (mkFrame cs)).volume = volumes cs := rfl

theorem indf_bb_upperband (sq : ℚ → ℚ) (cs : List Candle) :
    (populate_indicators sq (mkFrame cs)).bb_upperband =
      bbCol 20 (fun l => meanQ l + 2 * sq (varQ l)) (typical cs) := rfl

/-! ### The signal columns as functions of the rule conditions -/

theorem enter_col (sq : ℚ → ℚ) (cs : List Candle) :
    (evaluate sq cs).enter_long =
      (List.range (closes cs).length).map fun i =>
        if entry_cond (populate_indicators sq (mkFrame cs)) i then some 1
        else sget (List.replicate cs.length none) i := rfl

theorem exit_col (sq : ℚ → ℚ) (cs : List Candle) :
    (evaluate sq cs).exit_long =
      (List.range (closes cs).length).map fun i =>
        if exit_cond (populate_entry_trend (populate_indicators sq (mkFrame cs))) i
        then some 1 else sget (List.replicate cs.length none) i := rfl

theorem exit_cond_populate_entry (df : Frame) (i : ℕ) :
    exit_cond (populate_entry_trend df) i = exit_cond df i := rfl

theorem entry_cond_of_ge {df : Frame} {i : ℕ} (h : df.volume.length ≤ i) :
    entry_cond df i = false := by
  have hv : qget df.volume i = none := by simp [qget, List.getElem?_eq_none h]
  simp [entry_cond, hv, oGT, oLT_none_right]

theorem exit_cond_of_ge {df : Frame} {i : ℕ} (h₁ : df.rsi.length ≤ i)
    (h₂ : df.close.length ≤ i) (h₃ : df.macd.length ≤ i) :
    exit_cond df i = false := by
  have hr : sget df.rsi i = none := by simp [sget, List.getElem?_eq_none h₁]
  have hc : qget df.close i = none := by simp [qget, List.getElem?_eq_none h₂]
  have hm : sget df.macd i = none := by simp [sget, List.getElem?_eq_none h₃]
  cases i with
  | zero =>
    simp [exit_cond, crossed_above, crossed_below, hc, oGT, oLT_none_left,
      oLT_none_right]
  | succ j =>
    simp [exit_cond, crossed_above, crossed_below, hr, hc, hm, oGT,
      oLT_none_left, oLT_none_right]

theorem enter_some_iff (sq : ℚ → ℚ) (cs : List Candle) (i : ℕ) :
    sget (evaluate sq cs).enter_long i = some 1 ↔
      entry_cond (populate_indicators sq (mkFrame cs)) i = true := by
  rw [enter_col, sget_range_map]
  by_cases hn : i < (closes cs).length
  · simp only [hn, if_true, sget_replicate_none]
    by_cases hc : entry_cond (populate_indicators sq (mkFrame cs)) i <;> simp [hc]
  · have hge : (volumes cs).length ≤ i := by
      simpa [closes, volumes] using Nat.le_of_not_lt hn
    have : entry_cond (populate_indicators sq (mkFrame cs)) i = false :=
      entry_cond_of_ge (by simpa [indf_volume] using hge)
    simp [hn, this]

theorem exit_some_iff (sq : ℚ → ℚ) (cs : List Candle) (i : ℕ) :
    sget (evaluate sq cs).exit_long i = some 1 ↔
      exit_cond (populate_indicators sq (mkFrame cs)) i = true := by
  rw [exit_col, sget_range_map]
  simp only [exit_cond_populate_entry]
  by_cases hn : i < (closes cs).length
  · simp only [hn, if_true, sget_replicate_none]
    by_cases hc : exit_cond (populate_indicators sq (mkFrame cs)) i <;> simp [hc]
  · have hge : cs.length ≤ i := by simpa [closes] using Nat.le_of_not_lt hn
    have : exit_cond (populate_indicators sq (mkFrame cs)) i = false := by
      refine exit_cond_of_ge ?_ ?_ ?_
      · simpa [indf_rsi, RSI_length, closes] using hge
      · simpa [indf_close, closes] using hge
      · simpa [indf_macd, macdLine_length, closes] using hge
    simp [hn, this]

/-- C1: for every index of an evaluated candle series, the entry signal is set
iff RSI crossed above 30 at that index, `macd > macdsignal`, `close > ema10`
(the 10-period EMA) and `volume > 0` all hold there. -/
theorem entry_signal_iff (sq : ℚ → ℚ) (cs : List Candle) (i : ℕ) :
    sget (evaluate sq cs).enter_long i = some 1 ↔
      (crossed_above (RSI 14 (closes cs))
          (const_series (RSI 14 (closes cs)).length 30) i = true ∧
       oGT (sget (macdLine (closes cs)) i) (sget (macdSignalLine (closes cs)) i) = true ∧
       oGT (qget (closes cs) i) (sget (EMA 10 (closes cs)) i) = true ∧
       oGT (qget (volumes cs) i) (some 0) = true) := by
  rw [enter_some_iff]
  simp only [entry_cond, indf_rsi, indf_macd, indf_macdsignal, indf_ema10,
    indf_close, indf_volume, Bool.and_eq_true]
  tauto

/-- C2: for every index of an evaluated candle series, the exit signal is set
iff RSI crossed above 70 there, or `close > bb_upperband`, or MACD crossed
below its signal line; in particular the Bollinger disjunct alone suffices. -/
theorem exit_signal_iff (sq : ℚ → ℚ) (cs : List Candle) (i : ℕ) :
    sget (evaluate sq cs).exit_long i = some 1 ↔
      (crossed_above (RSI 14 (closes cs))
          (const_series (RSI 14 (closes cs)).length 70) i = true ∨
       oGT (qget (closes cs) i)
          (sget (bbCol 20 (fun l => meanQ l + 2 * sq (varQ l)) (typical cs)) i) = true ∨
       crossed_below (macdLine (closes cs)) (macdSignalLine (closes cs)) i = true) := by
  rw [exit_some_iff]
  simp only [exit_cond, indf_rsi, indf_macd, indf_macdsignal, indf_close,
    indf_bb_upperband, Bool.or_eq_true]
  tauto

/-! ### Algebra of the crossover detector -/

theorem oLT_asymm {a b : Option ℚ} (h1 : oLT a b = true) (h2 : oLT b a = true) :
    False := by
  cases a <;> cases b <;> simp [oLT] at h1 h2
  exact lt_asymm h1 h2

/-- C5: `crossed_above` and `crossed_below` are never both true at an index,
`crossed_above A B` coincides with `crossed_below B A`, and index 0 (which
has no predecessor) never crosses in either direction. -/
theorem crossed_above_below_props (A B : List (Option ℚ)) (i : ℕ) :
    (¬(crossed_above A B i = true ∧ crossed_below A B i = true)) ∧
    crossed_above A B i = crossed_below B A i ∧
    crossed_above A B 0 = false ∧ crossed_below A B 0 = false := by
  refine ⟨?_, ?_, rfl, rfl⟩
  · rintro ⟨ha, hb⟩
    cases i with
    | zero => simp [crossed_above] at ha
    | succ j =>
      have ha' := (Bool.and_eq_true _ _ ▸ ha).2
      have hb' := (Bool.and_eq_true _ _ ▸ hb).2
      exact oLT_asymm (a := sget B (j + 1)) (b := sget A (j + 1)) ha' hb'
  · cases i <;> rfl

/-! ### Determinism of a full-series evaluation -/

/-- C8: the engine is a pure function of the candle series — two evaluations
of equal inputs produce identical output frames (indicator and signal columns
alike); there is no hidden or persisted state in the embedding. -/
theorem evaluate_deterministic (sq : ℚ → ℚ) (cs₁ cs₂ : List Candle)
    (h : cs₁ = cs₂) : evaluate sq cs₁ = evaluate sq cs₂ := by rw [h]

/-- Witness for C8 at a concrete one-candle series. -/
theorem evaluate_deterministic_witness :
    ([⟨0, 1, 1, 1, 1, 1⟩] : List Candle) = [⟨0, 1, 1, 1, 1, 1⟩] ∧
    evaluate sq0 [⟨0, 1, 1, 1, 1, 1⟩] = evaluate sq0 [⟨0, 1, 1, 1, 1, 1⟩] :=
  ⟨rfl, evaluate_deterministic sq0 [⟨0, 1, 1, 1, 1, 1⟩] [⟨0, 1, 1, 1, 1, 1⟩] rfl⟩

/-! ### The slow EMA is dead weight for the rules -/

/-- C9: the 50-period EMA column is computed but read by neither rule:
replacing it by anything leaves both signal columns unchanged. -/
theorem ema50_not_referenced (df : Frame) (e : List (Option ℚ)) :
    (populate_exit_trend (populate_entry_trend { df with ema50 := e })).enter_long =
      (populate_exit_trend (populate_entry_trend df)).enter_long ∧
    (populate_exit_trend (populate_entry_trend { df with ema50 := e })).exit_long =
      (populate_exit_trend (populate_entry_trend df)).exit_long :=
  ⟨rfl, rfl⟩

/-! ### Frame effect of the two rule evaluators -/

/-- C10: `populate_entry_trend` writes only `enter_long` and
`populate_exit_trend` writes only `exit_long` (resetting that one column
recovers the input frame exactly), and within range the written column is 1
where the rule matches while non-matching rows keep their previous
(unassigned) value rather than being set to 0. -/
theorem populate_trend_frame_effect (df : Frame) :
    (∀ i, i < df.close.length →
      sget (populate_entry_trend df).enter_long i =
        if entry_cond df i then some 1 else sget df.enter_long i) ∧
    (∀ i, i < df.close.length →
      sget (populate_exit_trend df).exit_long i =
        if exit_cond df i then some 1 else sget df.exit_long i) ∧
    { populate_entry_trend df with enter_long := df.enter_long } = df ∧
    { populate_exit_trend df with exit_long := df.exit_long } = df := by
  refine ⟨?_, ?_, rfl, rfl⟩
  · intro i hi
    rw [show (populate_entry_trend df).enter_long =
      (List.range df.close.length).map (fun i =>
        if entry_cond df i then some 1 else sget df.enter_long i) from rfl]
    rw [sget_range_map]
    simp [hi]
  · intro i hi
    rw [show (populate_exit_trend df).exit_long =
      (List.range df.close.length).map (fun i =>
        if exit_cond df i then some 1 else sget df.exit_long i) from rfl]
    rw [sget_range_map]
    simp [hi]

/-- Witness for C10 at a concrete one-candle frame and index 0. -/
theorem populate_trend_frame_effect_witness :
    0 < (mkFrame [⟨0, 1, 1, 1, 1, 1⟩]).close.length ∧
    sget (populate_entry_trend (mkFrame [⟨0, 1, 1, 1, 1, 1⟩])).enter_long 0 =
      if entry_cond (mkFrame [⟨0, 1, 1, 1, 1, 1⟩]) 0 then some 1
      else sget (mkFrame [⟨0, 1, 1, 1, 1, 1⟩]).enter_long 0 :=
  ⟨Nat.zero_lt_one,
   (populate_trend_frame_effect (mkFrame [⟨0, 1, 1, 1, 1, 1⟩])).1 0 Nat.zero_lt_one⟩

/-! ### RSI stays within [0, 100] -/

theorem rsiVal_bounds {ag al : ℚ} (hag : 0 ≤ ag) (hal : 0 ≤ al) :
    0 ≤ rsiVal ag al ∧ rsiVal ag al ≤ 100 := by
  unfold rsiVal
  split
  · exact ⟨by norm_num, le_refl _⟩
  · rename_i hne
    have hal' : 0 < al := lt_of_le_of_ne hal (Ne.symm hne)
    have hs : 0 < ag + al := by linarith
    constructor
    · exact div_nonneg (by positivity) (le_of_lt hs)
    · rw [div_le_iff₀ hs]
      linarith

theorem wilderAux_nonneg {p : ℚ} (hp : 1 ≤ p) :
    ∀ (ds : List ℚ) (pr : ℚ × ℚ), 0 ≤ pr.1 → 0 ≤ pr.2 →
      ∀ q ∈ wilderAux p pr ds, 0 ≤ q.1 ∧ 0 ≤ q.2 := by
  intro ds
  induction ds with
  | nil => intro pr _ _ q hq; simp [wilderAux] at hq
  | cons d rest ih =>
    intro pr hag hal q hq
    obtain ⟨ag, al⟩ := pr
    have hp0 : (0 : ℚ) < p := lt_of_lt_of_le one_pos hp
    have hp1 : (0 : ℚ) ≤ p - 1 := by linarith
    have hag2 : 0 ≤ (ag * (p - 1) + max d 0) / p :=
      div_nonneg (add_nonneg (mul_nonneg hag hp1) (le_max_right d 0)) (le_of_lt hp0)
    have hal2 : 0 ≤ (al * (p - 1) + max (-d) 0) / p :=
      div_nonneg (add_nonneg (mul_nonneg hal hp1) (le_max_right (-d) 0)) (le_of_lt hp0)
    simp only [wilderAux, List.mem_cons] at hq
    rcases hq with hq | hq
    · subst hq; exact ⟨hag2, hal2⟩
    · exact ih ((ag * (p - 1) + max d 0) / p, (al * (p - 1) + max (-d) 0) / p)
        hag2 hal2 q hq

theorem RSI_mem_bounds (period : ℕ) (xs : List ℚ) :
    ∀ x ∈ RSI period xs, ∀ q : ℚ, x = some q → 0 ≤ q ∧ q ≤ 100 := by
  unfold RSI
  split
  · intro x hx q hq
    rw [List.eq_of_mem_replicate hx] at hq
    cases hq
  · rename_i h
    push_neg at h
    have hp : (1 : ℚ) ≤ (period : ℚ) := by
      exact_mod_cast Nat.one_le_iff_ne_zero.mpr h.1
    intro x hx q hq
    set diffs := List.zipWith (fun b a => b - a) xs.tail xs with hdiffs
    have hG : 0 ≤ ((diffs.take period).map fun d => max d 0).sum / (period : ℚ) := by
      refine div_nonneg (List.sum_nonneg ?_) (by positivity)
      intro a ha
      obtain ⟨d, _, rfl⟩ := List.mem_map.mp ha
      exact le_max_right d 0
    have hL : 0 ≤ ((diffs.take period).map fun d => max (-d) 0).sum / (period : ℚ) := by
      refine div_nonneg (List.sum_nonneg ?_) (by positivity)
      intro a ha
      obtain ⟨d, _, rfl⟩ := List.mem_map.mp ha
      exact le_max_right (-d) 0
    rcases List.mem_append.mp hx with hx | hx
    · rw [List.eq_of_mem_replicate hx] at hq
      cases hq
    · obtain ⟨pr, hpr, hval⟩ := List.mem_map.mp hx
      rw [← hval] at hq
      obtain rfl : q = rsiVal pr.1 pr.2 := by
        simpa using hq.symm
      rcases List.mem_cons.mp hpr with hpr | hpr
      · subst hpr
        exact rsiVal_bounds hG hL
      · have := wilderAux_nonneg hp (diffs.drop period) _ hG hL pr hpr
        exact rsiVal_bounds this.1 this.2

/-- C7: every defined RSI value of an evaluated candle series lies in the
closed interval [0, 100]. -/
theorem rsi_in_range (sq : ℚ → ℚ) (cs : List Candle) (i : ℕ) (x : ℚ)
    (h : sget (evaluate sq cs).rsi i = some x) : 0 ≤ x ∧ x ≤ 100 := by
  rw [evaluate_rsi] at h
  unfold sget at h
  cases hx : (RSI 14 (closes cs))[i]? with
  | none => rw [hx] at h; cases h
  | some y =>
    rw [hx] at h
    simp only [Option.getD_some] at h
    exact RSI_mem_bounds 14 (closes cs) y (List.getElem?_mem hx) x h

/-- Witness for C7: a constant 15-close series has RSI defined at index 14
with value 100 (no losses, Wilder convention), which lies in [0, 100]. -/
theorem rsi_in_range_witness :
    sget (evaluate sq0 (List.replicate 15 ⟨0, 5, 5, 5, 5, 1⟩)).rsi 14 = some 100 ∧
    ((0 : ℚ) ≤ 100 ∧ (100 : ℚ) ≤ 100) := by
  have h : sget (evaluate sq0 (List.replicate 15 ⟨0, 5, 5, 5, 5, 1⟩)).rsi 14 =
      some 100 := by
    rw [evaluate_rsi]
    norm_num [closes, RSI, rsiVal, sget, List.replicate_succ]
  exact ⟨h, rsi_in_range sq0 (List.replicate 15 ⟨0, 5, 5, 5, 5, 1⟩) 14 100 h⟩

/-! ### The MACD signal line is entirely undefined on short series -/

theorem osub_none_right (x : Option ℚ) : osub x none = none := by cases x <;> rfl

theorem filterMap_zipWith_osub_le (a b : List (Option ℚ)) :
    ((List.zipWith osub a b).filterMap id).length ≤ (b.filterMap id).length := by
  induction a generalizing b with
  | nil => simp
  | cons x a' ih =>
    cases b with
    | nil => simp
    | cons y b' =>
      cases y with
      | none =>
        simpa [List.zipWith_cons_cons, List.filterMap_cons, osub_none_right]
          using ih b'
      | some v =>
        have hrhs : ((some v :: b').filterMap id).length =
            (b'.filterMap id).length + 1 := by
          simp [List.filterMap_cons]
        cases hx : osub x (some v) with
        | none =>
          have hl : ((List.zipWith osub (x :: a') (some v :: b')).filterMap id).length
              = ((List.zipWith osub a' b').filterMap id).length := by
            simp [List.zipWith_cons_cons, List.filterMap_cons, hx]
          rw [hl, hrhs]
          exact Nat.le_succ_of_le (ih b')
        | some w =>
          have hl : ((List.zipWith osub (x :: a') (some v :: b')).filterMap id).length
              = ((List.zipWith osub a' b').filterMap id).length + 1 := by
            simp [List.zipWith_cons_cons, List.filterMap_cons, hx]
          rw [hl, hrhs]
          exact Nat.succ_le_succ (ih b')

theorem EMA_definedCount (k : ℕ) (xs : List ℚ) :
    ((EMA k xs).filterMap id).length ≤ xs.length + 1 - k := by
  unfold EMA
  split
  · simp
  · rename_i h
    push_neg at h
    simp [List.filterMap_append, List.filterMap_replicate, List.filterMap_cons,
      List.filterMap_map, Function.comp, emaAux_length]
    omega

theorem macdSignalLine_all_none {xs : List ℚ} (h : xs.length < 34) :
    ∀ x ∈ macdSignalLine xs, x = none := by
  have hle : ((macdLine xs).filterMap id).length ≤ ((EMA 26 xs).filterMap id).length := by
    unfold macdLine
    exact filterMap_zipWith_osub_le _ _
  have h26 : ((EMA 26 xs).filterMap id).length ≤ xs.length + 1 - 26 :=
    EMA_definedCount 26 xs
  have hlt : ((macdLine xs).filterMap id).length < 9 := by omega
  intro x hx
  simp only [macdSignalLine, optEMA] at hx
  rw [show EMA 9 ((macdLine xs).filterMap id) =
      List.replicate ((macdLine xs).filterMap id).length none from by
    unfold EMA
    rw [if_pos (Or.inr hlt)]] at hx
  rcases List.mem_append.mp hx with hx | hx <;> exact List.eq_of_mem_replicate hx

/-! ### Short input: no error, but the entry signal can never fire -/

/-- C4 (amended): a candle series shorter than the declared warm-up window of
30 is evaluated without error, and the entry signal is unset (false) at every
index, because `macdsignal` is still entirely undefined there. -/
theorem enter_none_short (sq : ℚ → ℚ) (cs : List Candle) (i : ℕ)
    (h : cs.length < 30) : sget (evaluate sq cs).enter_long i = none := by
  rw [enter_col, sget_range_map]
  by_cases hn : i < (closes cs).length
  · have hms : sget (populate_indicators sq (mkFrame cs)).macdsignal i = none := by
      rw [indf_macdsignal]
      refine sget_all_none (macdSignalLine_all_none ?_) i
      simp only [closes, List.length_map]
      omega
    have hcond : entry_cond (populate_indicators sq (mkFrame cs)) i = false := by
      simp [entry_cond, hms, oGT, oLT_none_left]
    simp [hn, hcond, sget_replicate_none]
  · simp [hn]

/-- Witness for the amended C4 at a one-candle series. -/
theorem enter_none_short_witness :
    ([⟨0, 1, 1, 1, 1, 1⟩] : List Candle).length < 30 ∧
    sget (evaluate sq0 [⟨0, 1, 1, 1, 1, 1⟩]).enter_long 0 = none :=
  ⟨by norm_num, enter_none_short sq0 [⟨0, 1, 1, 1, 1, 1⟩] 0 (by norm_num)⟩

/-- A valid 10-candle series (constant price 4, unit volume). -/
def shortSeries : List Candle :=
  [⟨0, 4, 4, 4, 4, 1⟩, ⟨1, 4, 4, 4, 4, 1⟩, ⟨2, 4, 4, 4, 4, 1⟩, ⟨3, 4, 4, 4, 4, 1⟩,
   ⟨4, 4, 4, 4, 4, 1⟩, ⟨5, 4, 4, 4, 4, 1⟩, ⟨6, 4, 4, 4, 4, 1⟩, ⟨7, 4, 4, 4, 4, 1⟩,
   ⟨8, 4, 4, 4, 4, 1⟩, ⟨9, 4, 4, 4, 4, 1⟩]

/-- Counterexample to C4 as stated: a valid series of length 10 < 30 on which
the 10-period EMA is nevertheless defined at index 9 (value 4), so not every
indicator value is undefined before the 30-candle warm-up. -/
theorem short_series_has_defined_indicator :
    shortSeries.length < 30 ∧ validSeries shortSeries = true ∧
    sget (evaluate sq0 shortSeries).ema10 9 = some 4 := by
  refine ⟨by norm_num [shortSeries], ?_, ?_⟩
  · norm_num [validSeries, shortSeries, List.chain'_cons]
  · rw [evaluate_ema10]
    norm_num [closes, shortSeries, EMA, emaAux, sget]

/-! ### Undefined operands: sub-expressions go false, signals never error -/

/-- C6 (amended): a comparison or crossover whose operand is undefined
evaluates to false, so the entry rule — a pure conjunction — leaves the entry
signal unset whenever any of its indicator dependencies is undefined at the
index; and the exit signal cell is always either unset or 1, never an error
or a propagated undefined value (though a defined exit disjunct may still
fire while another disjunct's operands are undefined). -/
theorem undefined_dependency_policy :
    (∀ (sq : ℚ → ℚ) (cs : List Candle) (i : ℕ),
      (sget (populate_indicators sq (mkFrame cs)).rsi i = none ∨
       sget (populate_indicators sq (mkFrame cs)).macd i = none ∨
       sget (populate_indicators sq (mkFrame cs)).macdsignal i = none ∨
       sget (populate_indicators sq (mkFrame cs)).ema10 i = none) →
      sget (evaluate sq cs).enter_long i = none) ∧
    (∀ (sq : ℚ → ℚ) (cs : List Candle) (i : ℕ),
      sget (evaluate sq cs).exit_long i = none ∨
      sget (evaluate sq cs).exit_long i = some 1) := by
  constructor
  · intro sq cs i h
    rw [enter_col, sget_range_map]
    by_cases hn : i < (closes cs).length
    · have hcond : entry_cond (populate_indicators sq (mkFrame cs)) i = false := by
        rcases h with h | h | h | h
        · cases i with
          | zero => simp [entry_cond, crossed_above]
          | succ j => simp [entry_cond, crossed_above, h, oGT, oLT_none_right]
        · simp [entry_cond, h, oGT, oLT_none_right]
        · simp [entry_cond, h, oGT, oLT_none_left]
        · simp [entry_cond, h, oGT, oLT_none_left]
      simp [hn, hcond, sget_replicate_none]
    · simp [hn]
  · intro sq cs i
    rw [exit_col, sget_range_map]
    by_cases hn : i < (closes cs).length
    · by_cases hc :
        exit_cond (populate_entry_trend (populate_indicators sq (mkFrame cs))) i
      · right
        simp [hn, hc]
      · left
        simp [hn, hc, sget_replicate_none]
    · left
      simp [hn]

/-- Witness for the amended C6: on a one-candle series RSI is undefined at
index 0 and the entry signal there is unset. -/
theorem undefined_dependency_policy_witness :
    sget (populate_indicators sq0 (mkFrame [⟨0, 1, 1, 1, 1, 1⟩])).rsi 0 = none ∧
    sget (evaluate sq0 [⟨0, 1, 1, 1, 1, 1⟩]).enter_long 0 = none := by
  have h : sget (populate_indicators sq0 (mkFrame [⟨0, 1, 1, 1, 1, 1⟩])).rsi 0 =
      none := rfl
  exact ⟨h, undefined_dependency_policy.1 sq0 [⟨0, 1, 1, 1, 1, 1⟩] 0 (Or.inl h)⟩

/-- A 21-candle series, constant price 4 with a spike to 100 at index 20. -/
def spikeSeries : List Candle :=
  [⟨0, 4, 4, 4, 4, 1⟩, ⟨1, 4, 4, 4, 4, 1⟩, ⟨2, 4, 4, 4, 4, 1⟩, ⟨3, 4, 4, 4, 4, 1⟩,
   ⟨4, 4, 4, 4, 4, 1⟩, ⟨5, 4, 4, 4, 4, 1⟩, ⟨6, 4, 4, 4, 4, 1⟩, ⟨7, 4, 4, 4, 4, 1⟩,
   ⟨8, 4, 4, 4, 4, 1⟩, ⟨9, 4, 4, 4, 4, 1⟩, ⟨10, 4, 4, 4, 4, 1⟩, ⟨11, 4, 4, 4, 4, 1⟩,
   ⟨12, 4, 4, 4, 4, 1⟩, ⟨13, 4, 4, 4, 4, 1⟩, ⟨14, 4, 4, 4, 4, 1⟩, ⟨15, 4, 4, 4, 4, 1⟩,
   ⟨16, 4, 4, 4, 4, 1⟩, ⟨17, 4, 4, 4, 4, 1⟩, ⟨18, 4, 4, 4, 4, 1⟩, ⟨19, 4, 4, 4, 4, 1⟩,
   ⟨20, 100, 100, 100, 100, 1⟩]

/-- Counterexample to C6 as stated: at index 20 of `spikeSeries` the MACD
signal line — an operand of the exit rule's crossover sub-expression — is
undefined, yet the exit signal is set to 1 (the Bollinger disjunct fires), so
an undefined sub-expression operand does not force the signal to false. -/
theorem exit_set_despite_undefined_macdsignal :
    sget (evaluate sq0 spikeSeries).macdsignal 20 = none ∧
    sget (evaluate sq0 spikeSeries).exit_long 20 = some 1 := by
  constructor
  · rw [evaluate_macdsignal]
    refine sget_all_none (macdSignalLine_all_none ?_) 20
    norm_num [closes, spikeSeries]
  · have hcl : qget (populate_indicators sq0 (mkFrame spikeSeries)).close 20 =
        some 100 := by
      rw [indf_close]
      norm_num [qget, closes, spikeSeries]
    have hup : sget (populate_indicators sq0 (mkFrame spikeSeries)).bb_upperband 20 =
        some (44 / 5) := by
      rw [indf_bb_upperband]
      norm_num [bbCol, typical, spikeSeries, meanQ, varQ, sq0, sget,
        List.getElem?_map, List.getElem?_range]
    have hcond :
        exit_cond (populate_entry_trend (populate_indicators sq0 (mkFrame spikeSeries)))
          20 = true := by
      rw [exit_cond_populate_entry]
      unfold exit_cond
      rw [hcl, hup]
      norm_num [oGT, oLT]
    rw [exit_col, sget_range_map, hcond]
    norm_num [closes, spikeSeries]

/-! ### No input validation: every series is evaluated in full -/

/-- A 16-candle series with a negative volume at index 0 (invalid input). -/
def negVolSeries : List Candle :=
  [⟨0, 5, 5, 5, 5, -1⟩, ⟨1, 5, 5, 5, 5, 1⟩, ⟨2, 5, 5, 5, 5, 1⟩, ⟨3, 5, 5, 5, 5, 1⟩,
   ⟨4, 5, 5, 5, 5, 1⟩, ⟨5, 5, 5, 5, 5, 1⟩, ⟨6, 5, 5, 5, 5, 1⟩, ⟨7, 5, 5, 5, 5, 1⟩,
   ⟨8, 5, 5, 5, 5, 1⟩, ⟨9, 5, 5, 5, 5, 1⟩, ⟨10, 5, 5, 5, 5, 1⟩, ⟨11, 5, 5, 5, 5, 1⟩,
   ⟨12, 5, 5, 5, 5, 1⟩, ⟨13, 5, 5, 5, 5, 1⟩, ⟨14, 5, 5, 5, 5, 1⟩, ⟨15, 5, 5, 5, 5, 1⟩]

/-- Counterexample to C3 as stated: an invalid series (negative volume) is
not rejected — the engine computes indicators on it and returns results
(RSI is defined at index 14), so no InvalidInput error interrupts the
evaluation. -/
theorem invalid_input_still_evaluated :
    validSeries negVolSeries = false ∧
    sget (evaluate sq0 negVolSeries).rsi 14 = some 100 := by
  constructor
  · norm_num [validSeries, negVolSeries]
  · rw [evaluate_rsi]
    norm_num [closes, negVolSeries, RSI, rsiVal, wilderAux, sget,
      List.replicate_succ]

/-- C3 (amended): the engine performs no input validation — evaluation is
total, returning full-length indicator and signal columns for every input
series, valid or not. -/
theorem evaluate_total (sq : ℚ → ℚ) (cs : List Candle) :
    (evaluate sq cs).rsi.length = cs.length ∧
    (evaluate sq cs).enter_long.length = cs.length ∧
    (evaluate sq cs).exit_long.length = cs.length := by
  refine ⟨?_, ?_, ?_⟩
  · rw [evaluate_rsi]
    simp [RSI_length, closes]
  · rw [enter_col]
    simp [closes]
  · rw [exit_col]
    simp [closes]
